import Mathlib

/-!
Shallow embedding of the OCR post-processing core of `src/index.js`:
the paragraph grouper, the CTC-style sequence decoder, the recognition
result assembly, and the detection unclip geometry.  JavaScript numbers
are modelled as exact rationals (reals for the trigonometric detection
geometry); floating-point rounding is outside the model.  JavaScript
division by zero is noted where it can occur (rational division by zero
is 0 in Lean).
-/

/-! ### Paragraph grouper (`src/index.js` lines 77-229)

All frame coordinates are rationals.  The source's `GROUPING` config
fields carry a `_RATIO` suffix (`VERTICAL_THRESHOLD_RATIO`, ...); the
suffix is dropped here, values and meaning are unchanged. -/

/-- The four grouping ratios of `DEFAULT_CONFIG.GROUPING`. -/
structure GroupingConfig where
  VERTICAL_THRESHOLD : ℚ
  HORIZONTAL_THRESHOLD : ℚ
  MIN_OVERLAP : ℚ
  MAX_VERTICAL_OFFSET : ℚ
  deriving DecidableEq

/-- Default grouping config: 1.2, 2.5, 0.3, 0.5 (source lines 77-82). -/
def DEFAULT_GROUPING : GroupingConfig :=
  { VERTICAL_THRESHOLD := 6/5
    HORIZONTAL_THRESHOLD := 5/2
    MIN_OVERLAP := 3/10
    MAX_VERTICAL_OFFSET := 1/2 }

/-- Axis-aligned rectangle `{left, top, width, height}`. -/
structure Frame where
  left : ℚ
  top : ℚ
  width : ℚ
  height : ℚ
  deriving DecidableEq

/-- A confidence-filtered text element as consumed by the grouper. -/
structure TextEl where
  text : String
  confidence : ℚ
  frame : Frame
  deriving DecidableEq

/-- Placeholder element used for out-of-range list indexing. -/
def defaultEl : TextEl := ⟨"", 0, ⟨0, 0, 0, 0⟩⟩

/-- Center-to-center distances of `calculateDistance` (source lines 89-104).
The source also computes an unused `euclidean` field (a square root, never
read by `shouldGroup`); it is omitted to keep the embedding rational. -/
structure CenterDist where
  horizontal : ℚ
  vertical : ℚ

/-- Embeds `calculateDistance(box1, box2)` from the source. -/
def calculateDistance (box1 box2 : Frame) : CenterDist :=
  let c1x := box1.left + box1.width / 2
  let c1y := box1.top + box1.height / 2
  let c2x := box2.left + box2.width / 2
  let c2y := box2.top + box2.height / 2
  { horizontal := |c1x - c2x|, vertical := |c1y - c2y| }

/-- Embeds `boxesOverlapVertically(box1, box2)` (source lines 106-118): vertical
overlap of the two `[top, bottom]` intervals divided by the smaller height.
In the degenerate `minHeight = 0` case JavaScript yields `NaN` (0/0) and
every comparison against it is false; here `0 / 0 = 0`. -/
def boxesOverlapVertically (box1 box2 : Frame) : ℚ :=
  let overlapTop := max box1.top box2.top
  let overlapBottom := min (box1.top + box1.height) (box2.top + box2.height)
  let overlap := max 0 (overlapBottom - overlapTop)
  overlap / min box1.height box2.height

/-- Embeds `areOnSameLine(box1, box2, config)` (source lines 120-127).  Note that
`avgHeight` here is the mean of the two boxes' own heights, a local value
recomputed per pair. -/
def areOnSameLine (box1 box2 : Frame) (config : GroupingConfig) : Bool :=
  let overlapRatio := boxesOverlapVertically box1 box2
  let verticalOffset := |(box1.top + box1.height / 2) - (box2.top + box2.height / 2)|
  let avgHeight := (box1.height + box2.height) / 2
  decide (config.MIN_OVERLAP ≤ overlapRatio) ||
    decide (verticalOffset < avgHeight * config.MAX_VERTICAL_OFFSET)

/-- Embeds `shouldGroup(box1, box2, avgHeight, config)` (source lines 129-144);
`avgHeight` is the global mean element height passed by the caller. -/
def shouldGroup (box1 box2 : Frame) (avgHeight : ℚ) (config : GroupingConfig) : Bool :=
  let distance := calculateDistance box1 box2
  if areOnSameLine box1 box2 config then
    decide (box1.left < box2.left) &&
      decide (distance.horizontal < avgHeight * config.HORIZONTAL_THRESHOLD)
  else
    let horizontalOverlap :=
      min (box1.left + box1.width) (box2.left + box2.width) - max box1.left box2.left
    decide (box1.top < box2.top) &&
      decide (distance.vertical < avgHeight * config.VERTICAL_THRESHOLD) &&
      decide (0 < horizontalOverlap)

/-- The reading-order comparator of `groupTextElements` (source lines
151-157 and 188-197): left-to-right when the `top` coordinates differ by
less than half the average height, else top-to-bottom. -/
def jsCmp (avgHeight : ℚ) (a b : TextEl) : ℚ :=
  let verticalDiff := a.frame.top - b.frame.top
  if |verticalDiff| < avgHeight * (1/2) then a.frame.left - b.frame.left
  else verticalDiff

/-- Mean frame height over all elements (source line 149). -/
def avgHeightOf (elements : List TextEl) : ℚ :=
  (elements.map (fun el => el.frame.height)).sum / elements.length

/-- Frame of the element at index `i` of the sorted list. -/
def frameAt (sorted : List TextEl) (i : ℕ) : Frame :=
  (sorted.getD i defaultEl).frame

/-- The inner `for j` scan of `groupTextElements` (source lines 172-185):
the first ungrouped index whose frame should group with some current
group member. -/
def findCandidate (sorted : List TextEl) (avgHeight : ℚ) (config : GroupingConfig)
    (group used : List ℕ) : Option ℕ :=
  (List.range sorted.length).find? fun j =>
    !(used.contains j) &&
      group.any fun g => shouldGroup (frameAt sorted g) (frameAt sorted j) avgHeight config

/-- The `while (changed)` fixed-point loop of `groupTextElements` (source
lines 168-186), with explicit fuel.  Each iteration adds one fresh index,
so fuel `sorted.length` (as supplied by `groupIndices`) always reaches the
fixed point: at most `sorted.length - 1` indices can ever be added. -/
def growGroup (sorted : List TextEl) (avgHeight : ℚ) (config : GroupingConfig) :
    ℕ → List ℕ → List ℕ → List ℕ × List ℕ
  | 0, group, used => (group, used)
  | fuel + 1, group, used =>
    match findCandidate sorted avgHeight config group used with
    | none => (group, used)
    | some j => growGroup sorted avgHeight config fuel (group ++ [j]) (j :: used)

/-- The per-group re-sort by reading order (source lines 188-197). -/
def sortIdx (sorted : List TextEl) (avgHeight : ℚ) (group : List ℕ) : List ℕ :=
  group.insertionSort fun a b =>
    jsCmp avgHeight (sorted.getD a defaultEl) (sorted.getD b defaultEl) ≤ 0

/-- One step of the outer `for i` loop of `groupTextElements` (source
lines 162-200): skip used indices, otherwise grow a new group from `i`. -/
def buildStep (sorted : List TextEl) (avgHeight : ℚ) (config : GroupingConfig)
    (acc : List (List ℕ) × List ℕ) (i : ℕ) : List (List ℕ) × List ℕ :=
  if acc.2.contains i then acc
  else
    let r := growGroup sorted avgHeight config sorted.length [i] (i :: acc.2)
    (acc.1 ++ [sortIdx sorted avgHeight r.1], r.2)

/-- All groups of indices into the sorted element list, plus the final
used set. -/
def groupIndices (sorted : List TextEl) (avgHeight : ℚ) (config : GroupingConfig) :
    List (List ℕ) × List ℕ :=
  (List.range sorted.length).foldl (buildStep sorted avgHeight config) ([], [])

/-- Embeds `groupTextElements(elements, config)` (source lines 146-203).  The
JavaScript `Array.prototype.sort` is modelled as a stable insertion sort
on the comparator `jsCmp ≤ 0`. -/
def groupTextElements (elements : List TextEl) (config : GroupingConfig) :
    List (List TextEl) :=
  if elements.length = 0 then []
  else
    let avgHeight := avgHeightOf elements
    let sorted := elements.insertionSort fun a b => jsCmp avgHeight a b ≤ 0
    (groupIndices sorted avgHeight config).1.map fun g =>
      g.map fun idx => sorted.getD idx defaultEl

/-! ### Spec-side definitions for the grouper claims -/

/-- Vertical center of a frame (the spec's `centerY`). -/
def centerY (f : Frame) : ℚ := f.top + f.height / 2

/-- Modelled from the claim wording for C1: the same-line test with the
vertical-offset threshold taken against the GLOBAL mean element height. -/
def areOnSameLineClaimGlobal (box1 box2 : Frame) (globalAvgHeight : ℚ)
    (config : GroupingConfig) : Bool :=
  decide (config.MIN_OVERLAP ≤ boxesOverlapVertically box1 box2) ||
    decide (|centerY box1 - centerY box2| < globalAvgHeight * config.MAX_VERTICAL_OFFSET)

/-- Modelled from the claim wording for C7: the reading-order comparator
with the same-row test on VERTICAL CENTERS. -/
def claimSortCmp (avgHeight : ℚ) (a b : TextEl) : ℚ :=
  if |centerY a.frame - centerY b.frame| < avgHeight * (1/2) then
    a.frame.left - b.frame.left
  else a.frame.top - b.frame.top

/-- The C7 comparator as amended: the same-row test compares TOP
coordinates, written independently of `jsCmp`. -/
def amendedSortCmp (avgHeight : ℚ) (a b : TextEl) : ℚ :=
  if |a.frame.top - b.frame.top| < avgHeight / 2 then a.frame.left - b.frame.left
  else a.frame.top - b.frame.top

/-! ### Concrete inputs for the grouper claims -/

/-- C1 counterexample frames: two short elements ... -/
def C1frameA : Frame := ⟨0, 0, 30, 10⟩

/-- Second short element, on a clearly different line pairwise. -/
def C1frameB : Frame := ⟨0, 15, 30, 10⟩

/-- Three elements whose tall third member drags the global mean height to 40. -/
def C1elems : List TextEl :=
  [⟨"a", 1, C1frameA⟩, ⟨"b", 1, C1frameB⟩, ⟨"c", 1, ⟨0, 200, 30, 100⟩⟩]

/-- C3 element 1: frame {left 0, top 0, width 50, height 20}. -/
def C3e1 : TextEl := ⟨"a", 1, ⟨0, 0, 50, 20⟩⟩

/-- C3 element 2: frame {left 60, top 2, width 50, height 20}. -/
def C3e2 : TextEl := ⟨"b", 1, ⟨60, 2, 50, 20⟩⟩

/-- C3 element 2 with the horizontal edge gap widened to avgHeight*3 = 60. -/
def C3e2w : TextEl := ⟨"b", 1, ⟨110, 2, 50, 20⟩⟩

/-- C7 counterexample: a tall element (center 50) ... -/
def C7a : TextEl := ⟨"a", 1, ⟨30, 0, 10, 100⟩⟩

/-- Short element (center 13); tops differ by 8, centers by 37. -/
def C7b : TextEl := ⟨"b", 1, ⟨20, 8, 10, 10⟩⟩

/-! ### Grouper claim theorems -/

/-- C1 counterexample: for the pair (A, B) of `C1elems` under the default
config, the code's `areOnSameLine` is false (it uses the pairwise mean
height 10, threshold 5, against center offset 15) while the claimed test
with the global mean height 40 (threshold 20) is true. -/
theorem C1_counterexample :
    avgHeightOf C1elems = 40 ∧
    areOnSameLine C1frameA C1frameB DEFAULT_GROUPING = false ∧
    areOnSameLineClaimGlobal C1frameA C1frameB (avgHeightOf C1elems) DEFAULT_GROUPING
      = true := by
  norm_num [avgHeightOf, C1elems, C1frameA, C1frameB, areOnSameLine,
    areOnSameLineClaimGlobal, boxesOverlapVertically, centerY, DEFAULT_GROUPING]

/-- C1 (amended): in the adjacency test, a pair is on the same line iff
its vertical-overlap ratio reaches MIN_OVERLAP_RATIO or its vertical
center offset is below the PAIRWISE mean of the two elements' heights
times MAX_VERTICAL_OFFSET_RATIO; the global mean element height plays no
part in this decision. -/
theorem C1_same_line_uses_pairwise_mean_height (box1 box2 : Frame)
    (config : GroupingConfig) :
    areOnSameLine box1 box2 config = true ↔
      (config.MIN_OVERLAP ≤ boxesOverlapVertically box1 box2 ∨
        |centerY box1 - centerY box2| <
          (box1.height + box2.height) / 2 * config.MAX_VERTICAL_OFFSET) := by
  simp [areOnSameLine, centerY]

/-- C3 counterexample: with the default config the two claimed elements
land in TWO groups, not one (their center-to-center horizontal distance
is 60, at least the threshold avgHeight * 2.5 = 50). -/
theorem C3_counterexample :
    (groupTextElements [C3e1, C3e2] DEFAULT_GROUPING).length = 2 := by
  norm_num [groupTextElements, groupIndices, buildStep, growGroup, findCandidate,
    sortIdx, frameAt, shouldGroup, areOnSameLine, boxesOverlapVertically,
    calculateDistance, jsCmp, avgHeightOf, defaultEl, C3e1, C3e2, DEFAULT_GROUPING,
    List.insertionSort, List.orderedInsert, List.range, List.range.loop]

set_option maxHeartbeats 1600000 in
/-- C3 (amended): both configurations separate the pair: with the default
config the elements {0,0,50,20} and {60,2,50,20} form two singleton
groups (horizontal center distance 60 ≥ avgHeight*2.5 = 50), and with the
edge gap widened to avgHeight*3 they likewise form two singleton groups. -/
theorem C3_both_configurations_give_two_groups :
    groupTextElements [C3e1, C3e2] DEFAULT_GROUPING = [[C3e1], [C3e2]] ∧
    groupTextElements [C3e1, C3e2w] DEFAULT_GROUPING = [[C3e1], [C3e2w]] := by
  constructor <;>
    norm_num [groupTextElements, groupIndices, buildStep, growGroup, findCandidate,
      sortIdx, frameAt, shouldGroup, areOnSameLine, boxesOverlapVertically,
      calculateDistance, jsCmp, avgHeightOf, defaultEl, C3e1, C3e2, C3e2w,
      DEFAULT_GROUPING, List.insertionSort, List.orderedInsert, List.range,
      List.range.loop]

/-- C7 counterexample: with global mean height 55, the code's comparator
treats `C7a`, `C7b` as same row (tops differ by 8 < 27.5) and orders by
left (result 10, so b first), while the claimed centers-based comparator
sees center offset 37 ≥ 27.5 and orders by top (result -8, a first). -/
theorem C7_counterexample :
    avgHeightOf [C7a, C7b] = 55 ∧
    jsCmp (avgHeightOf [C7a, C7b]) C7a C7b = 10 ∧
    claimSortCmp (avgHeightOf [C7a, C7b]) C7a C7b = -8 := by
  norm_num [avgHeightOf, C7a, C7b, jsCmp, claimSortCmp, centerY]

/-- C7 (amended): in the canonical reading-order sort, two elements are
treated as being in the same row (ordered by left coordinate) exactly
when their TOP coordinates differ by less than avgHeight * 0.5; otherwise
they are ordered by top coordinate. -/
theorem C7_sort_same_row_compares_tops (avgHeight : ℚ) (a b : TextEl) :
    jsCmp avgHeight a b = amendedSortCmp avgHeight a b := by
  simp [jsCmp, amendedSortCmp, div_eq_mul_inv, one_div]

/-! ### Sequence decoder (`src/index.js` lines 601-633)

Per-timestep argmax classes are naturals, probabilities are rationals.
The dictionary is the list of lines of the dictionary file (plus a
trailing space entry, irrelevant here); `IGNORED_TOKENS` is the module
constant `DEFAULT_CONFIG.RECOGNITION.IGNORED_TOKENS = [0]`. -/

/-- The always-ignored class indices (source line 65). -/
def IGNORED_TOKENS : List ℕ := [0]

/-- A decoded line `{text, mean}`. -/
structure DecodedLine where
  text : String
  mean : ℚ
  deriving DecidableEq

/-- One iteration of the character/confidence loop of `Recognition.decode`
(source lines 620-628): skip ignored classes, skip raw-adjacent duplicates
when `rm` is set, then push the dictionary character and the probability.
JavaScript's `if (char)` treats both an out-of-range lookup (`undefined`)
and an empty dictionary entry as falsy, so both are skipped. -/
def decodeStep (dictionary : List String) (rm : Bool) (textIndex : List ℕ)
    (textProb : List ℚ) (acc : List String × List ℚ) (idx : ℕ) :
    List String × List ℚ :=
  if textIndex.getD idx 0 ∈ IGNORED_TOKENS then acc
  else if rm && decide (0 < idx) &&
      decide (textIndex.getD (idx - 1) 0 = textIndex.getD idx 0) then acc
  else
    match dictionary.get? (textIndex.getD idx 0 - 1) with
    | some ch =>
      if ch = "" then acc else (acc.1 ++ [ch], acc.2 ++ [textProb.getD idx 0])
    | none => acc

/-- The `charList`/`confList` accumulation of `Recognition.decode`
(source lines 619-628). -/
def decodeCharConf (dictionary : List String) (rm : Bool)
    (textIndex : List ℕ) (textProb : List ℚ) : List String × List ℚ :=
  (List.range textIndex.length).foldl (decodeStep dictionary rm textIndex textProb) ([], [])

/-- JavaScript whitespace as matched by the regex class `\s` (the ASCII
subset; the unicode space members behave identically here). -/
def jsIsSpace (c : Char) : Bool :=
  c == ' ' || c == '\t' || c == '\n' || c == '\r' || c == '\x0b' || c == '\x0c'

/-- The character-level effect of `.replace(/\r/g, '')`. -/
def removeCR (l : List Char) : List Char := l.filter fun c => !(c == '\r')

/-- The character-level effect of `.replace(/\s+/g, ' ')`: every
whitespace run collapses to one space.  The flag records whether the
previous character was part of a whitespace run. -/
def collapseWS : Bool → List Char → List Char
  | _, [] => []
  | prevSp, c :: rest =>
    if jsIsSpace c then (if prevSp then [] else [' ']) ++ collapseWS true rest
    else c :: collapseWS false rest

/-- The character-level effect of `.trim()`. -/
def jsTrim (l : List Char) : List Char :=
  ((l.dropWhile fun c => jsIsSpace c).reverse.dropWhile fun c => jsIsSpace c).reverse

/-- Embeds `Recognition.decode(textIndex, textProb)` (source lines 618-633). -/
def Recognition.decode (dictionary : List String) (rm : Bool)
    (textIndex : List ℕ) (textProb : List ℚ) : DecodedLine :=
  let r := decodeCharConf dictionary rm textIndex textProb
  { text := String.mk (jsTrim (collapseWS false (removeCR (String.join r.1).data)))
    mean := if r.2.length = 0 then 0 else r.2.sum / r.2.length }

/-! ### Spec-side characterization of the decode loop -/

/-- Dictionary hit test: class `c` maps to a non-empty dictionary entry. -/
def dictHit (dictionary : List String) (c : ℕ) : Bool :=
  match dictionary.get? (c - 1) with
  | some ch => !(ch == "")
  | none => false

/-- Timestep `idx` contributes a character and a confidence term: its
class is not ignored, it is not a raw-adjacent duplicate (when `rm`), and
its dictionary lookup hits. -/
def survives (dictionary : List String) (rm : Bool) (textIndex : List ℕ) (idx : ℕ) : Bool :=
  decide (textIndex.getD idx 0 ∉ IGNORED_TOKENS) &&
    !(rm && decide (0 < idx) &&
      decide (textIndex.getD (idx - 1) 0 = textIndex.getD idx 0)) &&
    dictHit dictionary (textIndex.getD idx 0)

/-- The timesteps that survive decoding. -/
def survivingPositions (dictionary : List String) (rm : Bool) (textIndex : List ℕ) :
    List ℕ :=
  (List.range textIndex.length).filter fun idx => survives dictionary rm textIndex idx

/-- The characters of the surviving timesteps. -/
def survivingChars (dictionary : List String) (rm : Bool) (textIndex : List ℕ) :
    List String :=
  (survivingPositions dictionary rm textIndex).map fun idx =>
    dictionary.getD (textIndex.getD idx 0 - 1) ""

/-- The probabilities of the surviving timesteps. -/
def survivingConfs (dictionary : List String) (rm : Bool) (textIndex : List ℕ)
    (textProb : List ℚ) : List ℚ :=
  (survivingPositions dictionary rm textIndex).map fun idx => textProb.getD idx 0

/-- A decode-loop iteration either appends the surviving character and
probability or leaves the accumulator unchanged, according to `survives`. -/
theorem decodeStep_eq_survives (dictionary : List String) (rm : Bool)
    (textIndex : List ℕ) (textProb : List ℚ) (acc : List String × List ℚ) (idx : ℕ) :
    decodeStep dictionary rm textIndex textProb acc idx =
      if survives dictionary rm textIndex idx then
        (acc.1 ++ [dictionary.getD (textIndex.getD idx 0 - 1) ""],
          acc.2 ++ [textProb.getD idx 0])
      else acc := by
  cases hs : survives dictionary rm textIndex idx with
  | true =>
    rw [if_pos rfl]
    unfold survives at hs
    simp only [Bool.and_eq_true, decide_eq_true_eq, Bool.not_eq_true'] at hs
    obtain ⟨⟨hign, hdup⟩, hdict⟩ := hs
    unfold decodeStep
    rw [if_neg hign, if_neg (by rw [hdup]; exact Bool.false_ne_true)]
    unfold dictHit at hdict
    rcases hcase : dictionary.get? (textIndex.getD idx 0 - 1) with _ | ch
    · rw [hcase] at hdict; exact absurd hdict Bool.false_ne_true
    · rw [hcase] at hdict
      simp only [hcase]
      have hch : ¬ch = "" := by simpa using hdict
      have hgd : dictionary.getD (textIndex.getD idx 0 - 1) "" = ch := by
        rw [List.getD_eq_getElem?_getD, ← List.get?_eq_getElem?, hcase, Option.getD_some]
      rw [if_neg hch, hgd]
  | false =>
    rw [if_neg Bool.false_ne_true]
    unfold decodeStep
    by_cases hign : textIndex.getD idx 0 ∈ IGNORED_TOKENS
    · rw [if_pos hign]
    · rw [if_neg hign]
      by_cases hdup : (rm && decide (0 < idx) &&
          decide (textIndex.getD (idx - 1) 0 = textIndex.getD idx 0)) = true
      · rw [if_pos hdup]
      · rw [if_neg hdup]
        have hdup2 : (rm && decide (0 < idx) &&
            decide (textIndex.getD (idx - 1) 0 = textIndex.getD idx 0)) = false := by
          cases h2 : (rm && decide (0 < idx) &&
              decide (textIndex.getD (idx - 1) 0 = textIndex.getD idx 0)) with
          | false => rfl
          | true => exact absurd h2 hdup
        have hd : dictHit dictionary (textIndex.getD idx 0) = false := by
          cases hdh : dictHit dictionary (textIndex.getD idx 0) with
          | false => rfl
          | true =>
            exfalso
            have hsurv : survives dictionary rm textIndex idx = true := by
              unfold survives
              simp only [Bool.and_eq_true, decide_eq_true_eq, Bool.not_eq_true']
              exact ⟨⟨hign, hdup2⟩, hdh⟩
            rw [hs] at hsurv
            exact Bool.false_ne_true hsurv
        unfold dictHit at hd
        rcases hcase : dictionary.get? (textIndex.getD idx 0 - 1) with _ | ch
        · simp only [hcase]
        · rw [hcase] at hd
          have hch : ch = "" := by simpa using hd
          simp [hcase, hch]

/-- The decode loop keeps exactly the surviving timesteps, in order. -/
theorem decodeCharConf_eq_survivors (dictionary : List String) (rm : Bool)
    (textIndex : List ℕ) (textProb : List ℚ) :
    decodeCharConf dictionary rm textIndex textProb =
      (survivingChars dictionary rm textIndex,
        survivingConfs dictionary rm textIndex textProb) := by
  have aux : ∀ (l : List ℕ) (A : List String) (B : List ℚ),
      l.foldl (decodeStep dictionary rm textIndex textProb) (A, B) =
        (A ++ (l.filter fun idx => survives dictionary rm textIndex idx).map
            (fun idx => dictionary.getD (textIndex.getD idx 0 - 1) ""),
          B ++ (l.filter fun idx => survives dictionary rm textIndex idx).map
            (fun idx => textProb.getD idx 0)) := by
    intro l
    induction l with
    | nil => simp
    | cons a l ih =>
      intro A B
      rw [List.foldl_cons, decodeStep_eq_survives]
      by_cases hs : survives dictionary rm textIndex a
      · rw [if_pos hs, ih, List.filter_cons_of_pos (by simpa using hs)]
        simp
      · rw [if_neg hs, ih, List.filter_cons_of_neg (by simpa using hs)]
  unfold decodeCharConf survivingChars survivingConfs survivingPositions
  rw [aux]
  simp

/-! ### Decoder claim theorems -/

/-- C2 counterexample: classes [5, 0, 5] (class 0 ignored) with
removeDuplicateChars enabled decode to the TWO-character text "ee" with
dictionary entry 5 ↦ "e", not to a single character: the duplicate test
compares raw-adjacent timesteps, and timestep 2's raw predecessor is the
ignored class 0, not the earlier surviving class 5. -/
theorem C2_counterexample :
    (Recognition.decode ["a", "b", "c", "d", "e"] true [5, 0, 5]
        [9/10, 8/10, 7/10]).text = "ee" ∧
    (Recognition.decode ["a", "b", "c", "d", "e"] true [5, 0, 5]
        [9/10, 8/10, 7/10]).text.length ≠ 1 := by
  constructor
  · rfl
  · decide

/-- C2 (amended): with removeDuplicateChars enabled, a timestep is
dropped as a duplicate exactly when its class equals the class of the
immediately preceding timestep of the RAW sequence (before ignored-class
timesteps are removed): the decode loop keeps position `idx` iff its
class is not ignored, `idx = 0` or the raw predecessor's class differs,
and its dictionary lookup is a non-empty entry. -/
theorem C2_duplicate_collapse_is_raw_adjacent (dictionary : List String)
    (textIndex : List ℕ) (textProb : List ℚ) :
    decodeCharConf dictionary true textIndex textProb =
      (((List.range textIndex.length).filter fun idx =>
          decide (textIndex.getD idx 0 ∉ IGNORED_TOKENS) &&
            (decide (idx = 0) ||
              decide (textIndex.getD (idx - 1) 0 ≠ textIndex.getD idx 0)) &&
            dictHit dictionary (textIndex.getD idx 0)).map
          (fun idx => dictionary.getD (textIndex.getD idx 0 - 1) ""),
        ((List.range textIndex.length).filter fun idx =>
          decide (textIndex.getD idx 0 ∉ IGNORED_TOKENS) &&
            (decide (idx = 0) ||
              decide (textIndex.getD (idx - 1) 0 ≠ textIndex.getD idx 0)) &&
            dictHit dictionary (textIndex.getD idx 0)).map
          (fun idx => textProb.getD idx 0)) := by
  have hpred : ∀ idx, survives dictionary true textIndex idx =
      (decide (textIndex.getD idx 0 ∉ IGNORED_TOKENS) &&
        (decide (idx = 0) ||
          decide (textIndex.getD (idx - 1) 0 ≠ textIndex.getD idx 0)) &&
        dictHit dictionary (textIndex.getD idx 0)) := by
    intro idx
    unfold survives
    by_cases h0 : idx = 0
    · subst h0; simp
    · have hpos : 0 < idx := Nat.pos_of_ne_zero h0
      by_cases he : textIndex.getD (idx - 1) 0 = textIndex.getD idx 0
      · simp [h0, he, hpos]
      · simp [h0, he, hpos]
  rw [decodeCharConf_eq_survivors]
  unfold survivingChars survivingConfs survivingPositions
  simp only [hpred]

/-- C8: an all-ignored-class sequence decodes to empty text with
confidence 0; in general the returned mean confidence is 0 exactly when
no timestep survives decoding, and otherwise it is the arithmetic mean of
the surviving timesteps' probabilities. -/
theorem C8_all_blank_and_mean_confidence (dictionary : List String) (rm : Bool)
    (textIndex : List ℕ) (textProb : List ℚ) :
    ((∀ c ∈ textIndex, c ∈ IGNORED_TOKENS) →
      Recognition.decode dictionary rm textIndex textProb = ⟨"", 0⟩) ∧
    (Recognition.decode dictionary rm textIndex textProb).mean =
      (if survivingConfs dictionary rm textIndex textProb = [] then 0
        else (survivingConfs dictionary rm textIndex textProb).sum /
          (survivingConfs dictionary rm textIndex textProb).length) := by
  constructor
  · intro hall
    have hsurv : survivingPositions dictionary rm textIndex = [] := by
      unfold survivingPositions
      rw [List.filter_eq_nil_iff]
      intro idx hidx
      have hlt : idx < textIndex.length := List.mem_range.mp hidx
      have hc : textIndex.getD idx 0 ∈ IGNORED_TOKENS := by
        have hmem : textIndex.getD idx 0 ∈ textIndex := by
          rw [List.getD_eq_getElem textIndex 0 hlt]
          exact List.getElem_mem hlt
        exact hall _ hmem
      simp only [List.getD_eq_getElem?_getD] at hc
      unfold survives
      simp [hc]
    unfold Recognition.decode
    rw [decodeCharConf_eq_survivors]
    unfold survivingChars survivingConfs
    rw [hsurv]
    rfl
  · unfold Recognition.decode
    rw [decodeCharConf_eq_survivors]
    by_cases h : survivingConfs dictionary rm textIndex textProb = []
    · simp [h]
    · simp only [h, if_false]
      rw [if_neg (by simpa [List.length_eq_zero] using h)]

/-- C8 witness: a concrete all-blank sequence decodes to `{text := "",
mean := 0}`. -/
theorem C8_witness :
    Recognition.decode ["a"] true [0, 0] [1/2, 1/2] = ⟨"", 0⟩ :=
  (C8_all_blank_and_mean_confidence ["a"] true [0, 0] [1/2, 1/2]).1 (by decide)

/-- C9: a class whose dictionary position `c - 1` lies outside the
dictionary's bounds contributes neither a character nor a confidence
term: its timestep does not survive, and the decode result is the plain
{text, mean} value assembled from the surviving timesteps only. -/
theorem C9_out_of_bounds_lookup_skipped (dictionary : List String) (rm : Bool)
    (textIndex : List ℕ) (textProb : List ℚ) (idx : ℕ)
    (h : dictionary.length ≤ textIndex.getD idx 0 - 1) :
    idx ∉ survivingPositions dictionary rm textIndex ∧
    Recognition.decode dictionary rm textIndex textProb =
      ⟨String.mk (jsTrim (collapseWS false (removeCR
          (String.join (survivingChars dictionary rm textIndex)).data))),
        if (survivingConfs dictionary rm textIndex textProb).length = 0 then 0
        else (survivingConfs dictionary rm textIndex textProb).sum /
          (survivingConfs dictionary rm textIndex textProb).length⟩ := by
  constructor
  · unfold survivingPositions
    intro hmem
    have hs := List.of_mem_filter hmem
    unfold survives dictHit at hs
    rw [List.get?_eq_none.mpr h] at hs
    simp at hs
  · unfold Recognition.decode
    rw [decodeCharConf_eq_survivors]

/-- C9 witness: class 5 against the one-entry dictionary ["a"]. -/
theorem C9_witness :
    (0 : ℕ) ∉ survivingPositions ["a"] true [5] ∧
    Recognition.decode ["a"] true [5] [1] =
      ⟨String.mk (jsTrim (collapseWS false (removeCR
          (String.join (survivingChars ["a"] true [5])).data))),
        if (survivingConfs ["a"] true [5] [1]).length = 0 then 0
        else (survivingConfs ["a"] true [5] [1]).sum /
          (survivingConfs ["a"] true [5] [1]).length⟩ :=
  C9_out_of_bounds_lookup_skipped ["a"] true [5] [1] 0 (by decide)

/-! ### Recognition result assembly (`src/index.js` lines 584-599) and the
`Ocr.detect` data array (lines 709-737)

Each line crop decodes as a batch-1 tensor, so `decodeText` returns one
decoded line per crop; inference plus `decodeText` is modelled as an
oracle from the crop's (opaque) raster id to its decoded line.  The
source's `allLines.unshift(...decodeText(output))` prepends that single
line. -/

/-- A rectified line crop: opaque raster id plus its source polygon. -/
structure LineImage where
  image : ℕ
  box : List (ℚ × ℚ)
  deriving DecidableEq

/-- A recognition result paired with its polygon. -/
structure RecResult where
  text : String
  mean : ℚ
  box : List (ℚ × ℚ)
  deriving DecidableEq

/-- Default line image for out-of-range indexing. -/
def dLI : LineImage := ⟨0, []⟩

/-- Default recognition result for out-of-range indexing. -/
def dRes : RecResult := ⟨"", 0, []⟩

/-- JavaScript's `array.map((x, i) => f(i, x))`. -/
def mapWithIndex (f : ℕ → α → β) : ℕ → List α → List β
  | _, [] => []
  | i, a :: l => f i a :: mapWithIndex f (i + 1) l

/-- The `for (const modelData of modelDatas) { ...; allLines.unshift(...) }`
loop of `Recognition.run` (source lines 589-593). -/
def runLines (oracle : ℕ → DecodedLine) (lineImages : List LineImage) :
    List DecodedLine :=
  lineImages.foldl (fun allLines li => oracle li.image :: allLines) []

/-- The box re-association of `Recognition.run` (source lines 595-598),
before the confidence filter: entry `i` receives the box of crop
`allLines.length - i - 1`. -/
def runResults (oracle : ℕ → DecodedLine) (lineImages : List LineImage) :
    List RecResult :=
  let allLines := runLines oracle lineImages
  mapWithIndex
    (fun i line =>
      ⟨line.text, line.mean, (lineImages.getD (allLines.length - i - 1) dLI).box⟩)
    0 allLines

/-- Embeds `Recognition.run` (source lines 584-599): assembled results filtered
by the confidence threshold. -/
def Recognition.run (oracle : ℕ → DecodedLine) (lineImages : List LineImage)
    (confidenceThreshold : ℚ) : List RecResult :=
  (runResults oracle lineImages).filter fun x => confidenceThreshold ≤ x.mean

/-- JavaScript `Math.round`: round half toward positive infinity. -/
def jsRound (q : ℚ) : ℚ := ((⌊q + 1/2⌋ : ℤ) : ℚ)

/-- Embeds `Math.min(...)` over a spread array (never called on empty input). -/
def listMin : List ℚ → ℚ
  | [] => 0
  | x :: xs => xs.foldl min x

/-- Embeds `Math.max(...)` over a spread array (never called on empty input). -/
def listMax : List ℚ → ℚ
  | [] => 0
  | x :: xs => xs.foldl max x

/-- Embeds `Ocr.extractFrameFromBox` (source lines 763-773). -/
def extractFrameFromBox (box : List (ℚ × ℚ)) : Frame :=
  if box.length = 0 then ⟨0, 0, 0, 0⟩
  else
    ⟨jsRound (listMin (box.map Prod.fst)), jsRound (listMin (box.map Prod.snd)),
      jsRound (listMax (box.map Prod.fst) - listMin (box.map Prod.fst)),
      jsRound (listMax (box.map Prod.snd) - listMin (box.map Prod.snd))⟩

/-- A `data` entry of the `Ocr.detect` result (source lines 715-722). -/
structure OcrElement where
  text : String
  confidence : ℚ
  frame : Frame
  box : List (ℚ × ℚ)
  deriving DecidableEq

/-- The `individualElements` assembly of `Ocr.detect` (source lines
715-722): drop falsy/whitespace-only texts, then build elements. -/
def Ocr.detectData (oracle : ℕ → DecodedLine) (lineImages : List LineImage)
    (confidenceThreshold : ℚ) : List OcrElement :=
  ((Recognition.run oracle lineImages confidenceThreshold).filter fun item =>
      !(item.text == "") && decide (0 < item.text.trim.length)).map fun item =>
    ⟨item.text.trim, item.mean, extractFrameFromBox item.box, item.box⟩

/-- The unshift loop produces the per-crop decodes in reverse order. -/
theorem runLines_eq_reverse_map (oracle : ℕ → DecodedLine)
    (lineImages : List LineImage) :
    runLines oracle lineImages =
      (lineImages.map fun li => oracle li.image).reverse := by
  have aux : ∀ (l : List LineImage) (acc : List DecodedLine),
      l.foldl (fun allLines li => oracle li.image :: allLines) acc =
        (l.map fun li => oracle li.image).reverse ++ acc := by
    intro l
    induction l with
    | nil => simp
    | cons a l ih => intro acc; simp [ih]
  simpa using aux lineImages []

/-- Length is preserved by `mapWithIndex`. -/
theorem mapWithIndex_length (f : ℕ → α → β) :
    ∀ (s : ℕ) (l : List α), (mapWithIndex f s l).length = l.length := by
  intro s l
  induction l generalizing s with
  | nil => rfl
  | cons a l ih => simp [mapWithIndex, ih]

/-- Entrywise value of `mapWithIndex`. -/
theorem mapWithIndex_getElem (f : ℕ → α → β) :
    ∀ (s : ℕ) (l : List α) (i : ℕ) (h : i < (mapWithIndex f s l).length),
      (mapWithIndex f s l)[i] =
        f (s + i) (l.get ⟨i, by simpa [mapWithIndex_length] using h⟩) := by
  intro s l
  induction l generalizing s with
  | nil => intro i h; simp [mapWithIndex] at h
  | cons a l ih =>
    intro i h
    match i with
    | 0 => simp [mapWithIndex]
    | i + 1 =>
      have h2 : i < (mapWithIndex f (s + 1) l).length := by
        simpa [mapWithIndex, Nat.succ_lt_succ_iff] using h
      simp only [mapWithIndex, List.getElem_cons_succ, ih (s + 1) i h2]
      simp only [List.get_eq_getElem, List.getElem_cons_succ]
      congr 1
      omega

/-- The assembled pre-filter result list equals the per-crop decode list
(text and confidence from the crop's tensor, box from the same crop),
reversed. -/
theorem runResults_eq_reverse (oracle : ℕ → DecodedLine) (lineImages : List LineImage) :
    runResults oracle lineImages =
      (lineImages.map fun li =>
        (⟨(oracle li.image).text, (oracle li.image).mean, li.box⟩ : RecResult)).reverse := by
  unfold runResults
  rw [runLines_eq_reverse_map]
  apply List.ext_getElem
  · simp [mapWithIndex_length]
  · intro i h1 h2
    have hn : i < lineImages.length := by
      simpa [mapWithIndex_length] using h1
    rw [mapWithIndex_getElem]
    simp only [List.get_eq_getElem]
    have e1 : (lineImages.map fun li => oracle li.image).reverse.length - i - 1 =
        lineImages.length - 1 - i := by
      simp only [List.length_reverse, List.length_map]
      omega
    simp only [Nat.zero_add, e1]
    have hidx : lineImages.length - 1 - i < lineImages.length := by omega
    rw [List.getD_eq_getElem _ _ hidx]
    have hrev1 : i < (lineImages.map fun li => oracle li.image).reverse.length := by
      simpa using hn
    rw [List.getElem_reverse, List.getElem_reverse, List.getElem_map, List.getElem_map]
    simp

/-- C6: for every list of batch-1 line crops, the i-th entry of the
pre-filter result list of `Recognition.run` pairs the decode of crop
n-1-i with the box of the same crop n-1-i, and the confidence filter
keeps each such record whole, so decoded text stays associated with its
originating crop's polygon. -/
theorem C6_results_pair_text_with_originating_box (oracle : ℕ → DecodedLine)
    (lineImages : List LineImage) (confidenceThreshold : ℚ) (i : ℕ)
    (h : i < lineImages.length) :
    (runResults oracle lineImages).getD i dRes =
      ⟨(oracle ((lineImages.getD (lineImages.length - 1 - i) dLI).image)).text,
        (oracle ((lineImages.getD (lineImages.length - 1 - i) dLI).image)).mean,
        (lineImages.getD (lineImages.length - 1 - i) dLI).box⟩ ∧
    ∀ r ∈ Recognition.run oracle lineImages confidenceThreshold,
      r ∈ runResults oracle lineImages := by
  constructor
  · rw [runResults_eq_reverse]
    have hrev : i < ((lineImages.map fun li =>
        (⟨(oracle li.image).text, (oracle li.image).mean, li.box⟩ : RecResult)).reverse).length := by
      simpa using h
    rw [List.getD_eq_getElem _ _ hrev, List.getElem_reverse, List.getElem_map]
    have hidx : lineImages.length - 1 - i < lineImages.length := by omega
    rw [List.getD_eq_getElem _ _ hidx]
    simp
  · intro r hr
    exact List.mem_of_mem_filter hr

/-- C6 witness inputs: an oracle separating the two crops by confidence. -/
def C6oracle : ℕ → DecodedLine := fun k => ⟨"x", (k : ℚ)⟩

/-- C6 witness inputs: two crops with distinct rasters and boxes. -/
def C6lis : List LineImage := [⟨10, [(0, 0)]⟩, ⟨20, [(1, 1)]⟩]

/-- C6 witness: the association holds at entry 0 of a two-crop list. -/
theorem C6_witness :
    (runResults C6oracle C6lis).getD 0 dRes =
      ⟨(C6oracle ((C6lis.getD (C6lis.length - 1 - 0) dLI).image)).text,
        (C6oracle ((C6lis.getD (C6lis.length - 1 - 0) dLI).image)).mean,
        (C6lis.getD (C6lis.length - 1 - 0) dLI).box⟩ ∧
    ∀ r ∈ Recognition.run C6oracle C6lis 0, r ∈ runResults C6oracle C6lis :=
  C6_results_pair_text_with_originating_box C6oracle C6lis 0 0 (by decide)

/-- C10: the pre-filter result list of `Recognition.run` is the reverse
of the per-crop decode list (entry i originates from crop n-1-i), and
consequently the `Ocr.detect` data array is the reverse of the region
extractor's enumeration order, filtered by confidence and non-empty text
and mapped to elements. -/
theorem C10_detect_data_reverses_crop_order (oracle : ℕ → DecodedLine)
    (lineImages : List LineImage) (confidenceThreshold : ℚ) :
    runResults oracle lineImages =
      (lineImages.map fun li =>
        (⟨(oracle li.image).text, (oracle li.image).mean, li.box⟩ : RecResult)).reverse ∧
    Ocr.detectData oracle lineImages confidenceThreshold =
      (((lineImages.reverse.map fun li =>
            (⟨(oracle li.image).text, (oracle li.image).mean, li.box⟩ : RecResult)).filter
          (fun x => confidenceThreshold ≤ x.mean)).filter fun item =>
            !(item.text == "") && decide (0 < item.text.trim.length)).map fun item =>
        ⟨item.text.trim, item.mean, extractFrameFromBox item.box, item.box⟩ := by
  refine ⟨runResults_eq_reverse oracle lineImages, ?_⟩
  unfold Ocr.detectData Recognition.run
  rw [runResults_eq_reverse, List.map_reverse]

/-! ### Detection unclip geometry (`src/index.js` lines 334-452, 508-545)

Coordinates are reals (the source computes with `Math.cos`/`Math.sin`).
`unclip` divides by `polygonPolygonLength(box)`; the gate deciding
whether a contour's mini-box reaches `unclip` is only the `sside` size
test of `splitIntoLineImages` (line 521). -/

/-- An OpenCV rotated rectangle (`cv.minAreaRect` output): center, size
and angle in degrees. -/
structure RotatedRect where
  cx : ℝ
  cy : ℝ
  width : ℝ
  height : ℝ
  angle : ℝ

/-- Embeds `boxPoints(rotatedRect)` (source lines 356-370). -/
noncomputable def boxPoints (r : RotatedRect) : List (ℝ × ℝ) :=
  let angle := r.angle * Real.pi / 180
  let b := Real.cos angle * (1/2)
  let a := Real.sin angle * (1/2)
  [(r.cx - a * r.height - b * r.width, r.cy + b * r.height - a * r.width),
    (r.cx + a * r.height - b * r.width, r.cy - b * r.height - a * r.width),
    (r.cx + a * r.height + b * r.width, r.cy - b * r.height + a * r.width),
    (r.cx - a * r.height + b * r.width, r.cy + b * r.height + a * r.width)]

/-- The corner reordering of `getMiniBoxes` (source lines 334-354): sort
the four corners by x, then pick top/bottom by y comparisons. -/
noncomputable def getMiniBoxesPoints (r : RotatedRect) : List (ℝ × ℝ) :=
  let points := (boxPoints r).insertionSort fun p q : ℝ × ℝ => p.1 ≤ q.1
  match points with
  | [p0, p1, p2, p3] =>
    let pA := if p1.2 > p0.2 then p0 else p1
    let pD := if p1.2 > p0.2 then p1 else p0
    let pB := if p3.2 > p2.2 then p2 else p3
    let pC := if p3.2 > p2.2 then p3 else p2
    [pA, pB, pC, pD]
  | l => l

/-- Embeds `sside` of `getMiniBoxes` (source line 353). -/
def ssideOf (r : RotatedRect) : ℝ := min r.height r.width

/-- Euclidean segment length, as in `polygonPolygonLength`. -/
noncomputable def segLen (p q : ℝ × ℝ) : ℝ :=
  Real.sqrt ((q.1 - p.1) ^ 2 + (q.2 - p.2) ^ 2)

/-- Embeds `polygonPolygonLength(polygon)` (source lines 381-388): perimeter
with wraparound indexing `(i+1) % length`. -/
noncomputable def polygonPolygonLength (polygon : List (ℝ × ℝ)) : ℝ :=
  ((List.range polygon.length).map fun i =>
    segLen (polygon.getD i (0, 0)) (polygon.getD ((i + 1) % polygon.length) (0, 0))).sum

/-- Embeds `polygonPolygonArea(polygon)` (source lines 372-379). -/
noncomputable def polygonPolygonArea (polygon : List (ℝ × ℝ)) : ℝ :=
  |((List.range polygon.length).map fun i =>
    (polygon.getD i (0, 0)).1 * (polygon.getD ((i + 1) % polygon.length) (0, 0)).2 -
      (polygon.getD ((i + 1) % polygon.length) (0, 0)).1 *
        (polygon.getD i (0, 0)).2).sum| / 2

/-- The offset distance computed inside `unclip` (source lines 443-445):
the division whose divisor the claim is about. -/
noncomputable def unclipDistance (box : List (ℝ × ℝ)) (unclipRatio : ℝ) : ℝ :=
  polygonPolygonArea box * unclipRatio / polygonPolygonLength box

/-- The size gate of `splitIntoLineImages` (source line 521): a contour's
mini-box reaches `unclip` iff its `sside` passes this test. -/
def reachesUnclip (minSize maxSize : ℝ) (r : RotatedRect) : Prop :=
  ¬(ssideOf r < minSize ∨ ssideOf r > maxSize)

/-- The reordered mini-box corners are a permutation of `boxPoints`. -/
theorem getMiniBoxesPoints_perm (r : RotatedRect) :
    (getMiniBoxesPoints r).Perm (boxPoints r) := by
  have hperm : ((boxPoints r).insertionSort fun p q : ℝ × ℝ => p.1 ≤ q.1).Perm
      (boxPoints r) := List.perm_insertionSort _ _
  have hlen : ((boxPoints r).insertionSort fun p q : ℝ × ℝ => p.1 ≤ q.1).length = 4 := by
    rw [hperm.length_eq]; rfl
  rcases hp : (boxPoints r).insertionSort fun p q : ℝ × ℝ => p.1 ≤ q.1 with
    _ | ⟨a, _ | ⟨b, _ | ⟨c, _ | ⟨d, rest⟩⟩⟩⟩ <;>
    rw [hp] at hlen <;> simp at hlen
  subst hlen
  rw [hp] at hperm
  simp only [getMiniBoxesPoints]
  rw [hp]
  refine List.Perm.trans ?_ hperm
  by_cases h1 : b.2 > a.2 <;> by_cases h2 : d.2 > c.2
  · simp only [if_pos h1, if_pos h2]
    exact List.Perm.cons a (@List.perm_append_comm _ [c, d] [b])
  · simp only [if_pos h1, if_neg h2]
    exact List.Perm.cons a (List.reverse_perm [b, c, d])
  · simp only [if_neg h1, if_pos h2]
    exact @List.perm_append_comm _ [b, c, d] [a]
  · simp only [if_neg h1, if_neg h2]
    exact List.Perm.trans (@List.perm_append_comm _ [b, d, c] [a])
      (List.Perm.cons a (List.Perm.cons b (List.Perm.swap c d [])))

/-- A list of nonnegative reals summing to zero is all zeros. -/
theorem sum_eq_zero_mem (L : List ℝ) (hnn : ∀ x ∈ L, 0 ≤ x) (hsum : L.sum = 0) :
    ∀ x ∈ L, x = 0 := by
  induction L with
  | nil => intro x hx; cases hx
  | cons a L ih =>
    have ha : 0 ≤ a := hnn a (List.mem_cons_self a L)
    have hL : 0 ≤ L.sum := List.sum_nonneg fun x hx => hnn x (List.mem_cons_of_mem a hx)
    rw [List.sum_cons] at hsum
    have ha0 : a = 0 := by linarith
    have hL0 : L.sum = 0 := by linarith
    intro x hx
    rcases List.mem_cons.mp hx with h | h
    · rw [h, ha0]
    · exact ih (fun y hy => hnn y (List.mem_cons_of_mem a hy)) hL0 x h

/-- A zero-length segment has equal endpoints. -/
theorem segLen_eq_zero (p q : ℝ × ℝ) (h : segLen p q = 0) : p = q := by
  unfold segLen at h
  have h2 : (q.1 - p.1) ^ 2 + (q.2 - p.2) ^ 2 = 0 :=
    (Real.sqrt_eq_zero (by positivity)).mp h
  have hx : q.1 - p.1 = 0 := by nlinarith [sq_nonneg (q.1 - p.1), sq_nonneg (q.2 - p.2)]
  have hy : q.2 - p.2 = 0 := by nlinarith [sq_nonneg (q.1 - p.1), sq_nonneg (q.2 - p.2)]
  exact Prod.ext_iff.mpr ⟨by linarith, by linarith⟩

/-- The perimeter is nonnegative. -/
theorem polyLength_nonneg (l : List (ℝ × ℝ)) : 0 ≤ polygonPolygonLength l := by
  unfold polygonPolygonLength
  apply List.sum_nonneg
  intro x hx
  rcases List.mem_map.mp hx with ⟨i, _, rfl⟩
  exact Real.sqrt_nonneg _

/-- A constant polygon has zero perimeter. -/
theorem polyLength_eq_zero_of_const (l : List (ℝ × ℝ)) (q : ℝ × ℝ)
    (h : ∀ p ∈ l, p = q) : polygonPolygonLength l = 0 := by
  unfold polygonPolygonLength
  apply List.sum_eq_zero
  intro x hx
  rcases List.mem_map.mp hx with ⟨i, hi, rfl⟩
  have hil : i < l.length := List.mem_range.mp hi
  have hmod : (i + 1) % l.length < l.length := Nat.mod_lt _ (by omega)
  have h1 : l.getD i (0, 0) = q := by
    rw [List.getD_eq_getElem _ _ hil]; exact h _ (List.getElem_mem hil)
  have h2 : l.getD ((i + 1) % l.length) (0, 0) = q := by
    rw [List.getD_eq_getElem _ _ hmod]; exact h _ (List.getElem_mem hmod)
  rw [h1, h2]
  unfold segLen
  simp

/-- A polygon with two distinct vertices has positive perimeter. -/
theorem polyLength_pos_of_mem_ne (l : List (ℝ × ℝ)) (a b : ℝ × ℝ)
    (ha : a ∈ l) (hb : b ∈ l) (hab : a ≠ b) : 0 < polygonPolygonLength l := by
  rcases (polyLength_nonneg l).lt_or_eq with h | h
  · exact h
  · exfalso
    have hz : ∀ x ∈ ((List.range l.length).map fun i =>
        segLen (l.getD i (0, 0)) (l.getD ((i + 1) % l.length) (0, 0))), x = 0 := by
      apply sum_eq_zero_mem
      · intro x hx
        rcases List.mem_map.mp hx with ⟨i, _, rfl⟩
        exact Real.sqrt_nonneg _
      · exact h.symm
    have hcons : ∀ i, i < l.length →
        l.getD i (0, 0) = l.getD ((i + 1) % l.length) (0, 0) := by
      intro i hi
      exact segLen_eq_zero _ _
        (hz _ (List.mem_map_of_mem _ (List.mem_range.mpr hi)))
    have hall : ∀ i, i < l.length → l.getD i (0, 0) = l.getD 0 (0, 0) := by
      intro i
      induction i with
      | zero => intro _; rfl
      | succ k ih =>
        intro hk
        have hkl : k < l.length := by omega
        have hstep := hcons k hkl
        rw [Nat.mod_eq_of_lt hk] at hstep
        rw [← hstep]
        exact ih hkl
    rcases List.mem_iff_getElem.mp ha with ⟨ia, hia, rfl⟩
    rcases List.mem_iff_getElem.mp hb with ⟨ib, hib, rfl⟩
    apply hab
    have e1 : l[ia] = l.getD ia (0, 0) := (List.getD_eq_getElem _ _ hia).symm
    have e2 : l[ib] = l.getD ib (0, 0) := (List.getD_eq_getElem _ _ hib).symm
    rw [e1, e2, hall ia hia, hall ib hib]

/-- A degenerate (single-point) rotated rect: center (5,5), size 0x0. -/
def C4degenerate : RotatedRect := ⟨5, 5, 0, 0, 7⟩

/-- C4 counterexample: with MIN_BOX_SIZE = 0 (reachable through the
public `minBoxSize` option) the degenerate box passes the sside gate and
reaches `unclip`, whose offset division then has divisor
`polygonPolygonLength = 0` — no degeneracy detection intervenes. -/
theorem C4_counterexample :
    reachesUnclip 0 2000 C4degenerate ∧
    polygonPolygonLength (getMiniBoxesPoints C4degenerate) = 0 := by
  constructor
  · unfold reachesUnclip ssideOf C4degenerate
    norm_num
  · apply polyLength_eq_zero_of_const _ ((5 : ℝ), (5 : ℝ))
    intro p hp
    have hp2 : p ∈ boxPoints C4degenerate :=
      (getMiniBoxesPoints_perm C4degenerate).mem_iff.mp hp
    simp [boxPoints, C4degenerate] at hp2
    exact hp2

/-- C4 (amended): the code performs no explicit degeneracy detection;
the `sside` size gate is what keeps degenerate polygons away from the
unclip division, and only because MIN_BOX_SIZE is positive (default 3):
every mini-box passing the gate with a positive MIN_BOX_SIZE has strictly
positive perimeter, so d = (area * unclipRatio) / perimeter never divides
by zero; with MIN_BOX_SIZE = 0 a degenerate box does reach the division
(see the counterexample). -/
theorem C4_positive_min_size_prevents_zero_perimeter (r : RotatedRect)
    (minSize maxSize : ℝ) (hpos : 0 < minSize)
    (hgate : reachesUnclip minSize maxSize r) :
    0 < polygonPolygonLength (getMiniBoxesPoints r) := by
  have hss : minSize ≤ ssideOf r := by
    by_contra hlt
    exact hgate (Or.inl (lt_of_not_le hlt))
  have hh : 0 < r.height :=
    lt_of_lt_of_le hpos (hss.trans (min_le_left _ _))
  have hP0 : (r.cx - Real.sin (r.angle * Real.pi / 180) * (1/2) * r.height -
        Real.cos (r.angle * Real.pi / 180) * (1/2) * r.width,
      r.cy + Real.cos (r.angle * Real.pi / 180) * (1/2) * r.height -
        Real.sin (r.angle * Real.pi / 180) * (1/2) * r.width) ∈ boxPoints r := by
    simp [boxPoints]
  have hP1 : (r.cx + Real.sin (r.angle * Real.pi / 180) * (1/2) * r.height -
        Real.cos (r.angle * Real.pi / 180) * (1/2) * r.width,
      r.cy - Real.cos (r.angle * Real.pi / 180) * (1/2) * r.height -
        Real.sin (r.angle * Real.pi / 180) * (1/2) * r.width) ∈ boxPoints r := by
    simp [boxPoints]
  have hne : (r.cx - Real.sin (r.angle * Real.pi / 180) * (1/2) * r.height -
        Real.cos (r.angle * Real.pi / 180) * (1/2) * r.width,
      r.cy + Real.cos (r.angle * Real.pi / 180) * (1/2) * r.height -
        Real.sin (r.angle * Real.pi / 180) * (1/2) * r.width) ≠
      (r.cx + Real.sin (r.angle * Real.pi / 180) * (1/2) * r.height -
        Real.cos (r.angle * Real.pi / 180) * (1/2) * r.width,
      r.cy - Real.cos (r.angle * Real.pi / 180) * (1/2) * r.height -
        Real.sin (r.angle * Real.pi / 180) * (1/2) * r.width) := by
    intro heq
    have h1 := congrArg Prod.fst heq
    have h2 := congrArg Prod.snd heq
    simp only [] at h1 h2
    have hsin : Real.sin (r.angle * Real.pi / 180) * r.height = 0 := by nlinarith
    have hcos : Real.cos (r.angle * Real.pi / 180) * r.height = 0 := by nlinarith
    have hs0 : Real.sin (r.angle * Real.pi / 180) = 0 := by
      rcases mul_eq_zero.mp hsin with h | h
      · exact h
      · exact absurd h (ne_of_gt hh)
    have hc0 : Real.cos (r.angle * Real.pi / 180) = 0 := by
      rcases mul_eq_zero.mp hcos with h | h
      · exact h
      · exact absurd h (ne_of_gt hh)
    have hone := Real.sin_sq_add_cos_sq (r.angle * Real.pi / 180)
    rw [hs0, hc0] at hone
    norm_num at hone
  exact polyLength_pos_of_mem_ne _ _ _
    ((getMiniBoxesPoints_perm r).mem_iff.mpr hP0)
    ((getMiniBoxesPoints_perm r).mem_iff.mpr hP1) hne

/-- C4 witness: a 6x4 box passes the default gate (minSize 3, maxSize
2000) and has positive mini-box perimeter. -/
theorem C4_witness :
    (0 : ℝ) < 3 ∧ reachesUnclip 3 2000 (RotatedRect.mk 0 0 6 4 0) ∧
    0 < polygonPolygonLength (getMiniBoxesPoints (RotatedRect.mk 0 0 6 4 0)) := by
  have hg : reachesUnclip 3 2000 (RotatedRect.mk 0 0 6 4 0) := by
    unfold reachesUnclip ssideOf
    norm_num [min_def]
  exact ⟨by norm_num, hg,
    C4_positive_min_size_prevents_zero_perimeter (RotatedRect.mk 0 0 6 4 0) 3 2000
      (by norm_num) hg⟩

/-! ### C5: the grouping loop partitions the input -/

/-- Unfolding equation: exhausted fuel. -/
theorem growGroup_zero (S : List TextEl) (avgH : ℚ) (cfg : GroupingConfig)
    (group used : List ℕ) : growGroup S avgH cfg 0 group used = (group, used) := rfl

/-- Unfolding equation: no candidate found, the loop stops. -/
theorem growGroup_succ_none (S : List TextEl) (avgH : ℚ) (cfg : GroupingConfig)
    (fuel : ℕ) (group used : List ℕ)
    (hf : findCandidate S avgH cfg group used = none) :
    growGroup S avgH cfg (fuel + 1) group used = (group, used) := by
  unfold growGroup
  rw [hf]

/-- Unfolding equation: the first candidate is added and the scan
restarts. -/
theorem growGroup_succ_some (S : List TextEl) (avgH : ℚ) (cfg : GroupingConfig)
    (fuel : ℕ) (group used : List ℕ) (j : ℕ)
    (hf : findCandidate S avgH cfg group used = some j) :
    growGroup S avgH cfg (fuel + 1) group used =
      growGroup S avgH cfg fuel (group ++ [j]) (j :: used) := by
  have hstep : growGroup S avgH cfg (fuel + 1) group used =
      match findCandidate S avgH cfg group used with
      | none => (group, used)
      | some j => growGroup S avgH cfg fuel (group ++ [j]) (j :: used) := rfl
  rw [hstep, hf]

/-- A found candidate is a fresh in-range index. -/
theorem findCandidate_some (S : List TextEl) (avgH : ℚ) (cfg : GroupingConfig)
    (group used : List ℕ) (j : ℕ)
    (hf : findCandidate S avgH cfg group used = some j) :
    j ∉ used ∧ j < S.length := by
  constructor
  · have hp := List.find?_some hf
    simp only [Bool.and_eq_true, Bool.not_eq_true'] at hp
    intro hj
    have hc : used.contains j = true := by
      rw [List.contains_iff_exists_mem_beq]
      exact ⟨j, hj, by simp⟩
    rw [hp.1] at hc
    exact Bool.false_ne_true hc
  · exact List.mem_range.mp (List.mem_of_find?_eq_some hf)

/-- The grow loop appends a block of fresh in-range indices to the group
and pushes exactly that block onto the used list. -/
theorem growGroup_spec (S : List TextEl) (avgH : ℚ) (cfg : GroupingConfig) :
    ∀ (fuel : ℕ) (group used : List ℕ),
      ∃ new : List ℕ,
        growGroup S avgH cfg fuel group used = (group ++ new, new.reverse ++ used) ∧
        (used.Nodup → (new.reverse ++ used).Nodup) ∧
        (∀ j ∈ new, j < S.length) := by
  intro fuel
  induction fuel with
  | zero =>
    intro group used
    exact ⟨[], by simp [growGroup_zero], fun h => by simpa using h, by simp⟩
  | succ fuel ih =>
    intro group used
    rcases hf : findCandidate S avgH cfg group used with _ | j
    · exact ⟨[], by simp [growGroup_succ_none _ _ _ _ _ _ hf],
        fun h => by simpa using h, by simp⟩
    · obtain ⟨hjnew, hjlt⟩ := findCandidate_some S avgH cfg group used j hf
      obtain ⟨new, heq, hnd, hbound⟩ := ih (group ++ [j]) (j :: used)
      refine ⟨j :: new, ?_, ?_, ?_⟩
      · rw [growGroup_succ_some _ _ _ _ _ _ _ hf, heq]
        simp
      · intro hu
        have hju : (j :: used).Nodup := by
          rw [List.nodup_cons]
          exact ⟨hjnew, hu⟩
        have := hnd hju
        simpa using this
      · intro x hx
        rcases List.mem_cons.mp hx with h | h
        · rw [h]; exact hjlt
        · exact hbound x h

/-- The per-group re-sort permutes the group. -/
theorem sortIdx_perm (S : List TextEl) (avgH : ℚ) (g : List ℕ) :
    (sortIdx S avgH g).Perm g := List.perm_insertionSort _ _

/-- Invariant of the outer grouping loop: the used list stays duplicate
free, in range, and a permutation of the joined groups; groups stay
non-empty; used only grows; every processed index ends up used. -/
theorem foldl_buildStep_spec (S : List TextEl) (avgH : ℚ) (cfg : GroupingConfig) :
    ∀ (is : List ℕ) (acc : List (List ℕ) × List ℕ),
      (∀ i ∈ is, i < S.length) →
      acc.2.Nodup → (∀ x ∈ acc.2, x < S.length) → acc.2.Perm acc.1.flatten →
      (∀ g ∈ acc.1, g ≠ []) →
      (is.foldl (buildStep S avgH cfg) acc).2.Nodup ∧
      (∀ x ∈ (is.foldl (buildStep S avgH cfg) acc).2, x < S.length) ∧
      (is.foldl (buildStep S avgH cfg) acc).2.Perm
        (is.foldl (buildStep S avgH cfg) acc).1.flatten ∧
      (∀ g ∈ (is.foldl (buildStep S avgH cfg) acc).1, g ≠ []) ∧
      (∀ x ∈ acc.2, x ∈ (is.foldl (buildStep S avgH cfg) acc).2) ∧
      (∀ i ∈ is, i ∈ (is.foldl (buildStep S avgH cfg) acc).2) := by
  intro is
  induction is with
  | nil =>
    intro acc hb h1 h2 h3 h4
    exact ⟨h1, h2, h3, h4, fun x hx => hx, by simp⟩
  | cons i is ih =>
    intro acc hb h1 h2 h3 h4
    rw [List.foldl_cons]
    by_cases hi : acc.2.contains i = true
    · have himem : i ∈ acc.2 := by
        obtain ⟨x, hx, hbeq⟩ := List.contains_iff_exists_mem_beq.mp hi
        have hix : i = x := by simpa using hbeq
        rw [hix]; exact hx
      have hstep : buildStep S avgH cfg acc i = acc := by
        unfold buildStep; rw [if_pos hi]
      rw [hstep]
      obtain ⟨r1, r2, r3, r4, r5, r6⟩ :=
        ih acc (fun x hx => hb x (List.mem_cons_of_mem i hx)) h1 h2 h3 h4
      refine ⟨r1, r2, r3, r4, r5, ?_⟩
      intro x hx
      rcases List.mem_cons.mp hx with h | h
      · rw [h]; exact r5 _ himem
      · exact r6 x h
    · have hinotmem : i ∉ acc.2 := by
        intro hmem
        exact hi (List.contains_iff_exists_mem_beq.mpr ⟨i, hmem, by simp⟩)
      obtain ⟨new, heq, hnd, hbound⟩ :=
        growGroup_spec S avgH cfg S.length [i] (i :: acc.2)
      have hstep : buildStep S avgH cfg acc i =
          (acc.1 ++ [sortIdx S avgH ([i] ++ new)], new.reverse ++ (i :: acc.2)) := by
        unfold buildStep
        rw [if_neg hi, heq]
      rw [hstep]
      have hicons : (i :: acc.2).Nodup := List.nodup_cons.mpr ⟨hinotmem, h1⟩
      have h1c : (new.reverse ++ (i :: acc.2)).Nodup := hnd hicons
      have h2c : ∀ x ∈ new.reverse ++ (i :: acc.2), x < S.length := by
        intro x hx
        rcases List.mem_append.mp hx with h | h
        · exact hbound x (List.mem_reverse.mp h)
        · rcases List.mem_cons.mp h with h | h
          · rw [h]; exact hb i (List.mem_cons_self i is)
          · exact h2 x h
      have h3c : (new.reverse ++ (i :: acc.2)).Perm
          ((acc.1 ++ [sortIdx S avgH ([i] ++ new)]).flatten) := by
        rw [List.flatten_append]
        simp only [List.flatten_cons, List.flatten_nil, List.append_nil]
        have p1 : (new.reverse ++ (i :: acc.2)).Perm (new ++ (i :: acc.2)) :=
          (List.reverse_perm new).append_right _
        have p2 : (new ++ (i :: acc.2)).Perm (i :: (new ++ acc.2)) := List.perm_middle
        have p3 : (i :: (new ++ acc.2)).Perm (i :: (new ++ acc.1.flatten)) :=
          (List.Perm.append_left new h3).cons i
        have p4 : (i :: (new ++ acc.1.flatten)).Perm (acc.1.flatten ++ (i :: new)) :=
          @List.perm_append_comm _ (i :: new) acc.1.flatten
        have p5 : (acc.1.flatten ++ (i :: new)).Perm
            (acc.1.flatten ++ sortIdx S avgH ([i] ++ new)) :=
          List.Perm.append_left _ (sortIdx_perm S avgH ([i] ++ new)).symm
        exact (((p1.trans p2).trans p3).trans p4).trans p5
      have h4c : ∀ g ∈ acc.1 ++ [sortIdx S avgH ([i] ++ new)], g ≠ [] := by
        intro g hg
        rcases List.mem_append.mp hg with h | h
        · exact h4 g h
        · have hgs : g = sortIdx S avgH ([i] ++ new) := List.mem_singleton.mp h
          rw [hgs]
          apply List.ne_nil_of_length_pos
          rw [(sortIdx_perm S avgH _).length_eq]
          simp
      obtain ⟨r1, r2, r3, r4, r5, r6⟩ :=
        ih (acc.1 ++ [sortIdx S avgH ([i] ++ new)], new.reverse ++ (i :: acc.2))
          (fun x hx => hb x (List.mem_cons_of_mem i hx)) h1c h2c h3c h4c
      refine ⟨r1, r2, r3, r4, ?_, ?_⟩
      · intro x hx
        exact r5 x (List.mem_append.mpr (Or.inr (List.mem_cons_of_mem i hx)))
      · intro x hx
        rcases List.mem_cons.mp hx with h | h
        · rw [h]
          exact r5 i (List.mem_append.mpr (Or.inr (List.mem_cons_self i acc.2)))
        · exact r6 x h

/-- Indexing the whole range reproduces the list. -/
theorem range_map_getD (l : List TextEl) :
    (List.range l.length).map (fun i => l.getD i defaultEl) = l := by
  apply List.ext_getElem
  · simp
  · intro i h1 h2
    have hi : i < l.length := by simpa using h2
    rw [List.getElem_map, List.getElem_range, List.getD_eq_getElem _ _ hi]

/-- C5: for every input list and grouping config, the returned groups
partition the input: their concatenation is a permutation of the input
(each element appears in exactly one group, multiplicity included), every
group is non-empty, and an empty input yields zero groups. -/
theorem C5_grouping_partitions_input (elements : List TextEl) (cfg : GroupingConfig) :
    (groupTextElements elements cfg).flatten.Perm elements ∧
    (∀ g ∈ groupTextElements elements cfg, g ≠ []) ∧
    (elements = [] → groupTextElements elements cfg = []) := by
  by_cases hz : elements.length = 0
  · have he : elements = [] := List.length_eq_zero.mp hz
    subst he
    refine ⟨by simp [groupTextElements], by simp [groupTextElements], fun _ => rfl⟩
  · have hgE : groupTextElements elements cfg =
        (groupIndices (elements.insertionSort fun a b =>
            jsCmp (avgHeightOf elements) a b ≤ 0) (avgHeightOf elements) cfg).1.map
          (fun g => g.map fun idx =>
            (elements.insertionSort fun a b =>
              jsCmp (avgHeightOf elements) a b ≤ 0).getD idx defaultEl) := by
      simp only [groupTextElements]
      rw [if_neg hz]
    set S := elements.insertionSort fun a b => jsCmp (avgHeightOf elements) a b ≤ 0
      with hSdef
    have hSperm : S.Perm elements := List.perm_insertionSort _ _
    have hgi : groupIndices S (avgHeightOf elements) cfg =
        (List.range S.length).foldl (buildStep S (avgHeightOf elements) cfg) ([], []) :=
      rfl
    obtain ⟨r1, r2, r3, r4, r5, r6⟩ :=
      foldl_buildStep_spec S (avgHeightOf elements) cfg (List.range S.length) ([], [])
        (fun i hi => List.mem_range.mp hi) (by simp) (by simp) (by simp) (by simp)
    have hmemiff : ∀ x,
        x ∈ ((List.range S.length).foldl
          (buildStep S (avgHeightOf elements) cfg) ([], [])).2 ↔
          x ∈ List.range S.length := by
      intro x
      constructor
      · intro hx; exact List.mem_range.mpr (r2 x hx)
      · intro hx; exact r6 x hx
    have hperm2 : (((List.range S.length).foldl
        (buildStep S (avgHeightOf elements) cfg) ([], [])).2).Perm
          (List.range S.length) :=
      (List.perm_ext_iff_of_nodup r1 (List.nodup_range S.length)).mpr hmemiff
    have hflat : (((List.range S.length).foldl
        (buildStep S (avgHeightOf elements) cfg) ([], [])).1.flatten).Perm
          (List.range S.length) := r3.symm.trans hperm2
    refine ⟨?_, ?_, ?_⟩
    · rw [hgE, hgi]
      rw [← List.map_flatten]
      have hstep := (hflat.map fun idx => S.getD idx defaultEl)
      rw [range_map_getD] at hstep
      exact hstep.trans hSperm
    · intro g hg
      rw [hgE, hgi] at hg
      rcases List.mem_map.mp hg with ⟨g0, hg0, rfl⟩
      rw [Ne, List.map_eq_nil_iff]
      exact r4 g0 hg0
    · intro h
      rw [h] at hz
      simp at hz

/-- C5 witness: a singleton input forms one group that is a permutation
of the input, and the empty input yields zero groups. -/
theorem C5_witness :
    (groupTextElements [⟨"w", 1, ⟨0, 0, 10, 10⟩⟩] DEFAULT_GROUPING).flatten.Perm
      [⟨"w", 1, ⟨0, 0, 10, 10⟩⟩] ∧
    groupTextElements ([] : List TextEl) DEFAULT_GROUPING = [] :=
  ⟨(C5_grouping_partitions_input [⟨"w", 1, ⟨0, 0, 10, 10⟩⟩] DEFAULT_GROUPING).1,
    (C5_grouping_partitions_input ([] : List TextEl) DEFAULT_GROUPING).2.2 rfl⟩
